import Mathlib

/-!
# Dependency-DAG Maintenance Agent — verification development

A shallow embedding of the Dependency-DAG Maintenance Agent described in
`spec.md`.  The implementation module
`enhanced_adk/governance_agents/dag_maintenance_agent.py` is not present in
the repository snapshot (only its unit tests under
`00-namespaces/namespaces-adk/tests/unit/` are), so the agent's components
are modelled from the specification text, faithful to its wording, and the
claims are settled against that model.

External collaborators (the MCP tool service and the taxonomy rule service)
are modelled as explicit function-valued parameters; external tool calls are
recorded in an explicit trace so that call-counting properties can be stated.
-/

set_option autoImplicit false

namespace DagMaintenance

/-- Modelled from the spec: the `DependencyNode` record of §3 of `spec.md`
(the defining module `dag_maintenance_agent.py` is missing from the
snapshot).  `metadata` is an opaque mapping, modelled as an association
list. -/
structure DependencyNode where
  id : String
  name : String
  type : String
  dependencies : List String
  file_path : String
  metadata : List (String × String)
deriving Repr, DecidableEq, Inhabited

/-- Modelled from the spec: `ValidationResult` of §3, also the response shape
of the taxonomy service's `validate_agent_name` (§4.3). -/
structure ValidationResult where
  valid : Bool
  violations : List String
deriving Repr, DecidableEq

/-- Modelled from the spec: the response shape of the taxonomy service's
`validate_and_fix` (§4.3). -/
structure FixResult where
  fixed : String
  changes : List String
deriving Repr, DecidableEq

/-- Conflict type enumeration (§3): `duplicate_name` or `taxonomy_drift`. -/
inductive ConflictType where
  | duplicate_name
  | taxonomy_drift
deriving Repr, DecidableEq

/-- Conflict severity enumeration (§3): `error` or `warning`. -/
inductive Severity where
  | error
  | warning
deriving Repr, DecidableEq

/-- Modelled from the spec: the `Conflict` record of §3.  The involved nodes
are kept as a list (the group is built in scan order). -/
structure Conflict where
  type : ConflictType
  severity : Severity
  nodes : List DependencyNode
  message : String
deriving Repr, DecidableEq

/-- Modelled from the spec: the `RepairResult` record of §3. -/
structure RepairResult where
  success : Bool
  repairs_applied : List String
  failures : List String
deriving Repr, DecidableEq

/-- The distinct node names in the order they are first seen in the input
(the iteration order of the name-keyed grouping dictionary in §4.4). -/
def firstNames : List DependencyNode → List String
  | [] => []
  | n :: rest => n.name :: (firstNames rest).filter (fun t => t ≠ n.name)

/-- The group of nodes sharing the exact name `nm`, in scan order (§4.4). -/
def nameGroup (nodes : List DependencyNode) (nm : String) : List DependencyNode :=
  nodes.filter (fun n => n.name == nm)

/-- The `duplicate_name` conflict emitted for the group of nodes named `nm`
(§4.4): severity `error`, `nodes` = the full group, message summarizing the
shared name and all file paths. -/
def dupConflict (nodes : List DependencyNode) (nm : String) : Conflict :=
  { type := ConflictType.duplicate_name
    severity := Severity.error
    nodes := nameGroup nodes nm
    message := "Duplicate name " ++ nm ++ " in files: "
      ++ String.intercalate ", " ((nameGroup nodes nm).map (fun n => n.file_path)) }

/-- Modelled from the spec: the duplicate pass of `detect_conflicts` (§4.4):
group nodes by exact name; every group of size ≥ 2 yields exactly one
conflict, emitted in the order the group's name first appears. -/
def duplicateConflicts (nodes : List DependencyNode) : List Conflict :=
  (firstNames nodes).filterMap (fun nm =>
    if 2 ≤ (nameGroup nodes nm).length then some (dupConflict nodes nm) else none)

/-- The `taxonomy_drift` conflict emitted for a single node (§4.4). -/
def driftConflict (vf : String → FixResult) (n : DependencyNode) : Conflict :=
  { type := ConflictType.taxonomy_drift
    severity := Severity.warning
    nodes := [n]
    message := "Name " ++ n.name ++ " should be " ++ (vf n.name).fixed
      ++ " (" ++ String.intercalate "; " (vf n.name).changes ++ ")" }

/-- Modelled from the spec: the drift pass of `detect_conflicts` (§4.4): for
every node, in input order, call `validate_and_fix(node.name)`; if the
returned `fixed` differs from the node's name, emit one warning conflict. -/
def driftConflicts (vf : String → FixResult) (nodes : List DependencyNode) : List Conflict :=
  nodes.filterMap (fun n =>
    if (vf n.name).fixed ≠ n.name then some (driftConflict vf n) else none)

/-- Modelled from the spec: `detect_conflicts` (§4.4) — duplicate pass
followed by drift pass; all duplicate conflicts precede all drift
conflicts. -/
def detect_conflicts (vf : String → FixResult) (nodes : List DependencyNode) : List Conflict :=
  duplicateConflicts nodes ++ driftConflicts vf nodes

/-- Splits a character list at every occurrence of `sep`; `cur` holds the
(reversed) characters of the current segment. -/
def splitChars (sep : Char) : List Char → List Char → List (List Char)
  | [], cur => [cur.reverse]
  | c :: cs, cur =>
    if c = sep then cur.reverse :: splitChars sep cs []
    else splitChars sep cs (c :: cur)

/-- Splits a string at every occurrence of the character `sep`. -/
def splitOnChar (sep : Char) (s : String) : List String :=
  (splitChars sep s.data []).map String.mk

/-- The base name of a path: the part after the last `/`. -/
def baseName (path : String) : String :=
  (splitOnChar '/' path).getLastD path

/-- The file stem: the base name with its extension (the part after the last
`.`) removed; a base name without a `.` is returned unchanged. -/
def stem (path : String) : String :=
  match splitOnChar '.' (baseName path) with
  | [] => baseName path
  | [_] => baseName path
  | parts => String.intercalate "." parts.dropLast

/-- Modelled from the spec: the Parser §4.1 (`_parse_dependency_file` in the
missing `dag_maintenance_agent.py`).  Derives `id` and `name` from the
file's base name without extension; `type` defaults to `"service"`,
`dependencies` and `metadata` default to empty; returns `none` when the
content could not be retrieved. -/
def parse (path : String) (content : Option String) : Option DependencyNode :=
  match content with
  | none => none
  | some _ =>
    some { id := stem path, name := stem path, type := "service",
           dependencies := [], file_path := path, metadata := [] }

/-- The substring of a violation string before the first `:` (§4.5). -/
def namePart (v : String) : String :=
  String.mk (v.data.takeWhile (fun c => c ≠ ':'))

/-- Modelled from the spec: the per-violation loop of `auto_repair` (§4.5),
returning the accumulated `repairs_applied` and `failures` lists in
processing order. -/
def repairLoop (vf : String → FixResult) : List String → List String × List String
  | [] => ([], [])
  | v :: rest =>
    if (vf (namePart v)).fixed ≠ namePart v then
      ((namePart v ++ " -> " ++ (vf (namePart v)).fixed) :: (repairLoop vf rest).1,
        (repairLoop vf rest).2)
    else ((repairLoop vf rest).1, v :: (repairLoop vf rest).2)

/-- Modelled from the spec: `auto_repair` (§4.5).  Every violation is
processed in order with no early exit; `success` holds iff no violation
remained unfixed. -/
def auto_repair (vf : String → FixResult) (violations : List String) : RepairResult :=
  { success := (repairLoop vf violations).2.isEmpty
    repairs_applied := (repairLoop vf violations).1
    failures := (repairLoop vf violations).2 }

/-- Modelled from the spec: `generate_repair_report` (§4.6) — a heading, one
bullet per repair and per failure, and the two summary lines. -/
def generate_repair_report (repairs failures : List String) : String :=
  "Auto-Repair Report\n\nRepairs Applied:\n"
    ++ String.intercalate "" (repairs.map (fun r => "- " ++ r ++ "\n"))
    ++ "\nFailures:\n"
    ++ String.intercalate "" (failures.map (fun f => "- " ++ f ++ "\n"))
    ++ "\nSummary: " ++ toString repairs.length ++ " repairs applied, "
    ++ toString failures.length ++ " failures\n"

/-- Modelled from the spec: the VALIDATE collection step (§4.7 step 2): for
each node in scan order, every violation reported for the node's name is
collected as `"<name>: <violation>"`. -/
def collectViolations (van : String → ValidationResult) : List DependencyNode → List String
  | [] => []
  | n :: rest =>
    let r := van n.name
    (if r.valid then [] else r.violations.map (fun v => n.name ++ ": " ++ v))
      ++ collectViolations van rest

/-- Modelled from the spec: `validate_taxonomy` (§4.7 step 2 and the unit
tests): calls `validate_agent_name` once per node, in scan order, and
aggregates a single `ValidationResult`.  The second component records the
names passed to the taxonomy service, one entry per call, in call order. -/
def validate_taxonomy (van : String → ValidationResult) (nodes : List DependencyNode) :
    ValidationResult × List String :=
  let viols := collectViolations van nodes
  ({ valid := viols.isEmpty, violations := viols }, nodes.map (fun n => n.name))

/-- One recorded external tool invocation (§6). -/
structure ToolCall where
  server : String
  tool : String
  params : List (String × String)
deriving Repr, DecidableEq

/-- A response of the tool service (§6): a file listing, a file's content, a
generic response mapping, or a failure (`ToolError`). -/
inductive ToolResponse where
  | files : List String → ToolResponse
  | content : String → ToolResponse
  | mapping : List (String × String) → ToolResponse
  | failure : String → ToolResponse
deriving Repr, DecidableEq

/-- The trace of external tool calls issued so far, oldest first. -/
abbrev Trace := List ToolCall

/-- Modelled from the spec: the external collaborators of §1 and §6 — the
filesystem/PR tool service's behaviour and the taxonomy rule service —
bundled as a pure environment, plus the current date used for branch
names (§4.7 step 5). -/
structure CycleEnv where
  scanResult : Except String (List String)
  readContent : String → Option String
  validate_agent_name : String → ValidationResult
  validate_and_fix : String → FixResult
  prResponse : List (String × String)
  today : String

/-- Modelled from the spec: the tool-invocation contract
`invoke(server, tool, params)` of §6.  The response is determined by the
environment; the call is appended to the trace.  The read tool's concrete
name is not given by the spec (its table lists it as `(read)`); it is
modelled as `read_file`. -/
def call_tool (env : CycleEnv) (server tool : String) (params : List (String × String))
    (tr : Trace) : ToolResponse × Trace :=
  let resp :=
    if server == "filesystem-mcp" && tool == "scan_directory" then
      match env.scanResult with
      | Except.ok fs => ToolResponse.files fs
      | Except.error e => ToolResponse.failure e
    else if server == "filesystem-mcp" && tool == "read_file" then
      match (params.lookup "path").bind env.readContent with
      | some c => ToolResponse.content c
      | none => ToolResponse.failure "read failed"
    else if server == "github-mcp" && tool == "create_pr" then
      ToolResponse.mapping env.prResponse
    else ToolResponse.failure "unknown tool"
  (resp, tr ++ [{ server := server, tool := tool, params := params }])

/-- The scan-directory call issued by `scan_workspace` (§4.2). -/
def scanCall (root : String) : ToolCall :=
  { server := "filesystem-mcp", tool := "scan_directory",
    params := [("path", root), ("pattern", "*.yaml"), ("recursive", "true")] }

/-- The per-file content-read call issued by `scan_workspace` (§4.2, §6). -/
def readCall (path : String) : ToolCall :=
  { server := "filesystem-mcp", tool := "read_file", params := [("path", path)] }

/-- Modelled from the spec: the per-file loop of the Scanner (§4.2): for each
file path, retrieve the content and parse it, skipping files whose content
could not be retrieved (`ParseSkip`, §7), preserving scan order. -/
def scanFiles (env : CycleEnv) : List String → Trace → List DependencyNode × Trace
  | [], tr => ([], tr)
  | path :: rest, tr =>
    let tr1 := (call_tool env "filesystem-mcp" "read_file" [("path", path)] tr).2
    match (call_tool env "filesystem-mcp" "read_file" [("path", path)] tr).1 with
    | ToolResponse.content c =>
      match parse path (some c) with
      | some node => (node :: (scanFiles env rest tr1).1, (scanFiles env rest tr1).2)
      | none => scanFiles env rest tr1
    | _ => scanFiles env rest tr1

/-- Modelled from the spec: `scan_workspace` (§4.2): one scan-directory tool
call, then one content read per listed file.  Returns the node list (or
the re-raised failure), the labels recorded on the scan counter for this
call, and the extended call trace. -/
def scan_workspace (env : CycleEnv) (root : String) (tr : Trace) :
    Except String (List DependencyNode) × List String × Trace :=
  let tr1 := (call_tool env "filesystem-mcp" "scan_directory"
    [("path", root), ("pattern", "*.yaml"), ("recursive", "true")] tr).2
  match (call_tool env "filesystem-mcp" "scan_directory"
    [("path", root), ("pattern", "*.yaml"), ("recursive", "true")] tr).1 with
  | ToolResponse.files fs =>
    (Except.ok (scanFiles env fs tr1).1, ["success"], (scanFiles env fs tr1).2)
  | ToolResponse.failure e => (Except.error e, ["error"], tr1)
  | _ => (Except.error "unexpected scan response", ["error"], tr1)

/-- Modelled from the spec: `create_repair_pr` (§4.7): one tool call with
server `github-mcp`, tool `create_pr`, the fixed title, the given branch
and a repair report with an empty failure list as body; the service's
response is returned unmodified. -/
def create_repair_pr (env : CycleEnv) (repairs : List String) (branch : String)
    (tr : Trace) : ToolResponse × Trace :=
  call_tool env "github-mcp" "create_pr"
    [("title", "Auto-repair: Taxonomy compliance fixes"), ("branch", branch),
     ("body", generate_repair_report repairs [])] tr

/-- The PR-creation call issued by `create_repair_pr` (§4.7). -/
def prCall (repairs : List String) (branch : String) : ToolCall :=
  { server := "github-mcp", tool := "create_pr",
    params := [("title", "Auto-repair: Taxonomy compliance fixes"), ("branch", branch),
               ("body", generate_repair_report repairs [])] }

/-- Observable outcome of one maintenance cycle: the scanned nodes, the
violations collected by VALIDATE, how often `auto_repair` ran, its result,
whether a PR was created, and the full external-call trace. -/
structure CycleTrace where
  nodes : List DependencyNode
  violations : List String
  autoRepairRuns : Nat
  repair : Option RepairResult
  prCreated : Bool
  calls : Trace
deriving Repr, DecidableEq

/-- Modelled from the spec: the Orchestrator's `run_maintenance_cycle`
state machine (§4.7): SCAN, VALIDATE, then — only if violations were
collected — REPAIR, and — only if some repair was applied — CREATE_PR. -/
def run_maintenance_cycle (env : CycleEnv) (root : String) : Except String CycleTrace :=
  match scan_workspace env root [] with
  | (Except.error e, _, _) => Except.error e
  | (Except.ok nodes, _, tr1) =>
    let vres := (validate_taxonomy env.validate_agent_name nodes).1
    if vres.violations.isEmpty then
      Except.ok { nodes := nodes, violations := vres.violations, autoRepairRuns := 0,
                  repair := none, prCreated := false, calls := tr1 }
    else
      let rr := auto_repair env.validate_and_fix vres.violations
      if rr.repairs_applied.isEmpty then
        Except.ok { nodes := nodes, violations := vres.violations, autoRepairRuns := 1,
                    repair := some rr, prCreated := false, calls := tr1 }
      else
        Except.ok { nodes := nodes, violations := vres.violations, autoRepairRuns := 1,
                    repair := some rr, prCreated := true,
                    calls := (create_repair_pr env rr.repairs_applied
                      ("auto-repair-" ++ env.today) tr1).2 }

/-- The name a conflict is about: the name of the first involved node. -/
def confName (c : Conflict) : String :=
  ((c.nodes.map (fun n => n.name)).headD "")

/-- The position in the node list at which a name is first seen. -/
def firstSeenIdx (nodes : List DependencyNode) (nm : String) : Nat :=
  nodes.findIdx (fun n => n.name == nm)

deriving instance DecidableEq for Except

/-! ### Concrete fixtures (from the unit tests and §8 scenarios) -/

/-- An identity taxonomy fixer: no name is ever changed. -/
def vfId : String → FixResult := fun s => { fixed := s, changes := [] }

/-- A taxonomy fixer that renames every name (suffixes `-v1`). -/
def vfDrift : String → FixResult := fun s => { fixed := s ++ "-v1", changes := ["Converted"] }

/-- First node of scenario 1 (§8): duplicate name, file `/workspace/1.yaml`. -/
def nodeA : DependencyNode :=
  { id := "node1", name := "platform-agent-service-v1", type := "service",
    dependencies := [], file_path := "/workspace/1.yaml", metadata := [] }

/-- Second node of scenario 1 (§8): same name, file `/workspace/2.yaml`. -/
def nodeB : DependencyNode :=
  { id := "node2", name := "platform-agent-service-v1", type := "service",
    dependencies := [], file_path := "/workspace/2.yaml", metadata := [] }

/-- A node with a distinct name, seen between the two duplicates. -/
def nodeY : DependencyNode :=
  { id := "nodeY", name := "other-agent-service-v1", type := "service",
    dependencies := [], file_path := "/workspace/y.yaml", metadata := [] }

/-- A third node repeating the duplicate name of `nodeA`. -/
def nodeC : DependencyNode :=
  { id := "node3", name := "platform-agent-service-v1", type := "service",
    dependencies := [], file_path := "/workspace/3.yaml", metadata := [] }

/-- The drifting node of scenario 2 (§8). -/
def nodeW : DependencyNode :=
  { id := "node1", name := "WrongName", type := "service",
    dependencies := [], file_path := "/workspace/1.yaml", metadata := [] }

/-- A taxonomy validator accepting every name. -/
def vanOk : String → ValidationResult := fun _ => { valid := true, violations := [] }

/-- A taxonomy validator accepting exactly the name `good-name`. -/
def vanStrict : String → ValidationResult := fun s =>
  if s == "good-name" then { valid := true, violations := [] }
  else { valid := false, violations := ["Name must be kebab-case"] }

/-- A compliant node named `good-name`. -/
def nodeGood : DependencyNode :=
  { id := "g", name := "good-name", type := "service",
    dependencies := [], file_path := "/workspace/g.yaml", metadata := [] }

/-- A node named `InvalidName`, rejected by `vanStrict`. -/
def nodeInvalid : DependencyNode :=
  { id := "i", name := "InvalidName", type := "service",
    dependencies := [], file_path := "/workspace/i.yaml", metadata := [] }

/-- A fully compliant environment whose scan lists no files
(the `test_run_maintenance_cycle_compliant` setup). -/
def envCompliant : CycleEnv :=
  { scanResult := Except.ok [], readContent := fun _ => some "content",
    validate_agent_name := vanOk, validate_and_fix := vfId,
    prResponse := [("url", "https://github.com/test/pr/42"), ("number", "42")],
    today := "20240109" }

/-- A compliant environment whose scan lists one file. -/
def envOneFile : CycleEnv :=
  { envCompliant with scanResult := Except.ok ["/workspace/a.yaml"] }

/-- An environment whose scan tool call fails
(the `test_scan_workspace_error` setup). -/
def envScanError : CycleEnv :=
  { envCompliant with scanResult := Except.error "Scan failed" }

/-! ### Helper lemmas -/

lemma call_tool_scan_eq (env : CycleEnv) (root : String) (tr : Trace) :
    call_tool env "filesystem-mcp" "scan_directory"
        [("path", root), ("pattern", "*.yaml"), ("recursive", "true")] tr
      = ((match env.scanResult with
          | Except.ok fs => ToolResponse.files fs
          | Except.error e => ToolResponse.failure e), tr ++ [scanCall root]) := rfl

lemma call_tool_read_eq (env : CycleEnv) (path : String) (tr : Trace) :
    call_tool env "filesystem-mcp" "read_file" [("path", path)] tr
      = ((match env.readContent path with
          | some c => ToolResponse.content c
          | none => ToolResponse.failure "read failed"), tr ++ [readCall path]) := rfl

lemma call_tool_pr_eq (env : CycleEnv) (repairs : List String) (branch : String) (tr : Trace) :
    call_tool env "github-mcp" "create_pr"
        [("title", "Auto-repair: Taxonomy compliance fixes"), ("branch", branch),
         ("body", generate_repair_report repairs [])] tr
      = (ToolResponse.mapping env.prResponse, tr ++ [prCall repairs branch]) := rfl

lemma scanFiles_trace (env : CycleEnv) (fs : List String) (tr : Trace) :
    (scanFiles env fs tr).2 = tr ++ fs.map readCall := by
  induction fs generalizing tr with
  | nil => simp [scanFiles]
  | cons path rest ih =>
    simp only [scanFiles, call_tool_read_eq]
    cases h : env.readContent path with
    | none => simp [h, ih, List.append_assoc]
    | some c => simp [h, parse, ih, List.append_assoc]

lemma scanFiles_nodes (env : CycleEnv) (fs : List String) (tr : Trace) :
    ∀ n ∈ (scanFiles env fs tr).1, n.id = stem n.file_path ∧ n.name = stem n.file_path := by
  induction fs generalizing tr with
  | nil => simp [scanFiles]
  | cons path rest ih =>
    intro n hn
    simp only [scanFiles, call_tool_read_eq] at hn
    cases h : env.readContent path with
    | none => simp [h] at hn; exact ih _ n hn
    | some c =>
      simp [h, parse] at hn
      rcases hn with rfl | hn
      · exact ⟨rfl, rfl⟩
      · exact ih _ n hn

lemma scan_workspace_ok_eq (env : CycleEnv) (root : String) (tr : Trace) (fs : List String)
    (h : env.scanResult = Except.ok fs) :
    scan_workspace env root tr
      = (Except.ok (scanFiles env fs (tr ++ [scanCall root])).1, ["success"],
          tr ++ [scanCall root] ++ fs.map readCall) := by
  simp [scan_workspace, call_tool_scan_eq, h, scanFiles_trace]

lemma scan_workspace_error_eq (env : CycleEnv) (root : String) (tr : Trace) (e : String)
    (h : env.scanResult = Except.error e) :
    scan_workspace env root tr = (Except.error e, ["error"], tr ++ [scanCall root]) := by
  simp [scan_workspace, call_tool_scan_eq, h]

lemma repairLoop_fst (vf : String → FixResult) (vs : List String) :
    (repairLoop vf vs).1 = vs.filterMap (fun v =>
      if (vf (namePart v)).fixed ≠ namePart v
      then some (namePart v ++ " -> " ++ (vf (namePart v)).fixed) else none) := by
  induction vs with
  | nil => rfl
  | cons v rest ih =>
    by_cases h : (vf (namePart v)).fixed = namePart v
    · simp [repairLoop, h, List.filterMap_cons, ih]
    · simp [repairLoop, h, List.filterMap_cons, ih]

lemma repairLoop_snd (vf : String → FixResult) (vs : List String) :
    (repairLoop vf vs).2 = vs.filter (fun v => (vf (namePart v)).fixed == namePart v) := by
  induction vs with
  | nil => rfl
  | cons v rest ih =>
    by_cases h : (vf (namePart v)).fixed = namePart v
    · simp [repairLoop, h, List.filter_cons, ih]
    · simp [repairLoop, h, List.filter_cons, ih]

lemma repairLoop_length (vf : String → FixResult) (vs : List String) :
    (repairLoop vf vs).1.length + (repairLoop vf vs).2.length = vs.length := by
  induction vs with
  | nil => rfl
  | cons v rest ih =>
    by_cases h : (vf (namePart v)).fixed = namePart v
    · simp [repairLoop, h]; omega
    · simp [repairLoop, h]; omega

/-- C3: `auto_repair` processes all `m` violations in order with no early
exit: the applied repairs are exactly the in-order fixable violations
rendered as `"<name> -> <fixed>"`, the failures are exactly the in-order
unfixable original violation strings, and the two lengths always sum to
the number of violations. -/
theorem auto_repair_processes_all (vf : String → FixResult) (vs : List String) :
    (auto_repair vf vs).repairs_applied = vs.filterMap (fun v =>
        if (vf (namePart v)).fixed ≠ namePart v
        then some (namePart v ++ " -> " ++ (vf (namePart v)).fixed) else none)
    ∧ (auto_repair vf vs).failures = vs.filter (fun v => (vf (namePart v)).fixed == namePart v)
    ∧ (auto_repair vf vs).repairs_applied.length + (auto_repair vf vs).failures.length
        = vs.length :=
  ⟨repairLoop_fst vf vs, repairLoop_snd vf vs, repairLoop_length vf vs⟩

/-- C4: `auto_repair`'s `success` flag is true iff its `failures` list is
empty, and a single unfixable violation (one whose `validate_and_fix`
result equals the extracted name) forces `success = false`. -/
theorem auto_repair_success_iff (vf : String → FixResult) (vs : List String) :
    ((auto_repair vf vs).success = true ↔ (auto_repair vf vs).failures = [])
    ∧ (∀ v ∈ vs, (vf (namePart v)).fixed = namePart v → (auto_repair vf vs).success = false) := by
  constructor
  · exact List.isEmpty_iff
  · intro v hv hfix
    have hmem : v ∈ (repairLoop vf vs).2 := by
      rw [repairLoop_snd]
      exact List.mem_filter.mpr ⟨hv, by simp [hfix]⟩
    have hne : (repairLoop vf vs).2 ≠ [] := List.ne_nil_of_mem hmem
    show (repairLoop vf vs).2.isEmpty = false
    simpa using hne

theorem auto_repair_success_iff_witness :
    (auto_repair vfId ["BadName: Cannot be fixed"]).success = false :=
  (auto_repair_success_iff vfId ["BadName: Cannot be fixed"]).2
    "BadName: Cannot be fixed" (by decide) (by decide)

/-- C7: `create_repair_pr` makes exactly one tool call — server
`github-mcp`, tool `create_pr`, params with the fixed title, the given
branch, and as body the repair report over the given repairs and an empty
failure list — and returns the service's response mapping unmodified. -/
theorem create_repair_pr_spec (env : CycleEnv) (repairs : List String) (branch : String)
    (tr : Trace) :
    create_repair_pr env repairs branch tr
      = (ToolResponse.mapping env.prResponse, tr ++ [prCall repairs branch]) :=
  call_tool_pr_eq env repairs branch tr

/-- C8: when the workspace-scan tool call fails, `scan_workspace` labels
the scan counter `error` exactly once, re-raises the same failure
unmodified with no nodes returned, and issues no further call (no retry);
on a successful scan the counter is labeled `success`. -/
theorem scan_workspace_error_handling (env : CycleEnv) (root : String) (tr : Trace) :
    (∀ e, env.scanResult = Except.error e →
        scan_workspace env root tr = (Except.error e, ["error"], tr ++ [scanCall root]))
    ∧ (∀ fs, env.scanResult = Except.ok fs →
        (scan_workspace env root tr).2.1 = ["success"]) := by
  constructor
  · intro e he
    exact scan_workspace_error_eq env root tr e he
  · intro fs hfs
    rw [scan_workspace_ok_eq env root tr fs hfs]

theorem scan_workspace_error_handling_witness :
    scan_workspace envScanError "/workspace" []
      = (Except.error "Scan failed", ["error"], [] ++ [scanCall "/workspace"]) :=
  (scan_workspace_error_handling envScanError "/workspace" []).1 "Scan failed" rfl

lemma collectViolations_mem (van : String → ValidationResult) (nodes : List DependencyNode) :
    ∀ v ∈ collectViolations van nodes, ∃ n ∈ nodes, ∃ r, v = n.name ++ ": " ++ r := by
  induction nodes with
  | nil => simp [collectViolations]
  | cons n rest ih =>
    intro v hv
    simp only [collectViolations] at hv
    rcases List.mem_append.mp hv with h | h
    · by_cases hval : (van n.name).valid
      · simp [hval] at h
      · simp [hval, List.mem_map] at h
        obtain ⟨w, _, hw⟩ := h
        exact ⟨n, List.mem_cons_self n rest, w, hw.symm⟩
    · obtain ⟨m, hm, r, hr⟩ := ih v h
      exact ⟨m, List.mem_cons_of_mem n hm, r, hr⟩

/-- C10: `validate_taxonomy` calls `validate_agent_name` exactly once per
node, in scan order (the recorded call list is exactly the node names);
the aggregated result's `valid` flag is true iff its `violations` list is
empty; and every collected violation string carries the name of the node
it came from (it is `"<name>: <reason>"` for some node of the input). -/
theorem validate_taxonomy_spec (van : String → ValidationResult) (nodes : List DependencyNode) :
    (validate_taxonomy van nodes).2 = nodes.map (fun n => n.name)
    ∧ ((validate_taxonomy van nodes).1.valid = true
        ↔ (validate_taxonomy van nodes).1.violations = [])
    ∧ ∀ v ∈ (validate_taxonomy van nodes).1.violations,
        ∃ n ∈ nodes, ∃ r, v = n.name ++ ": " ++ r :=
  ⟨rfl, List.isEmpty_iff, collectViolations_mem van nodes⟩

theorem validate_taxonomy_spec_witness :
    ∃ n ∈ [nodeGood, nodeInvalid], ∃ r,
      "InvalidName: Name must be kebab-case" = n.name ++ ": " ++ r :=
  (validate_taxonomy_spec vanStrict [nodeGood, nodeInvalid]).2.2
    "InvalidName: Name must be kebab-case" (by decide)

lemma mem_driftConflicts (vf : String → FixResult) (nodes : List DependencyNode) (c : Conflict) :
    c ∈ driftConflicts vf nodes
      ↔ ∃ m ∈ nodes, (vf m.name).fixed ≠ m.name ∧ c = driftConflict vf m := by
  simp only [driftConflicts, List.mem_filterMap]
  constructor
  · rintro ⟨m, hm, hf⟩
    by_cases h : (vf m.name).fixed = m.name
    · rw [if_neg (not_not_intro h)] at hf; cases hf
    · rw [if_pos h] at hf
      exact ⟨m, hm, h, (Option.some.inj hf).symm⟩
  · rintro ⟨m, hm, h, rfl⟩
    exact ⟨m, hm, by rw [if_pos h]⟩

lemma mem_duplicateConflicts (nodes : List DependencyNode) (c : Conflict) :
    c ∈ duplicateConflicts nodes
      ↔ ∃ nm ∈ firstNames nodes, 2 ≤ (nameGroup nodes nm).length ∧ c = dupConflict nodes nm := by
  simp only [duplicateConflicts, List.mem_filterMap]
  constructor
  · rintro ⟨nm, hnm, hf⟩
    by_cases h : 2 ≤ (nameGroup nodes nm).length
    · rw [if_pos h] at hf
      exact ⟨nm, hnm, h, (Option.some.inj hf).symm⟩
    · rw [if_neg h] at hf; cases hf
  · rintro ⟨nm, hnm, h, rfl⟩
    exact ⟨nm, hnm, by rw [if_pos h]⟩

/-- C2: for a node `n` of the input, `detect_conflicts` emits a conflict
with type `taxonomy_drift`, severity `warning` and nodes `{n}` if and only
if the taxonomy service's `validate_and_fix(n.name)` returns a `fixed`
value different from `n.name`. -/
theorem detect_conflicts_drift_iff (vf : String → FixResult) (nodes : List DependencyNode)
    (n : DependencyNode) (hn : n ∈ nodes) :
    (∃ c ∈ detect_conflicts vf nodes,
        c.type = ConflictType.taxonomy_drift ∧ c.severity = Severity.warning ∧ c.nodes = [n])
      ↔ (vf n.name).fixed ≠ n.name := by
  constructor
  · rintro ⟨c, hc, htype, hsev, hnodes⟩
    rcases List.mem_append.mp hc with h | h
    · obtain ⟨nm, -, -, rfl⟩ := (mem_duplicateConflicts nodes c).mp h
      simp [dupConflict] at htype
    · obtain ⟨m, hm, hfix, rfl⟩ := (mem_driftConflicts vf nodes c).mp h
      have hmn : m = n := by simpa [driftConflict] using hnodes
      exact hmn ▸ hfix
  · intro hfix
    refine ⟨driftConflict vf n, List.mem_append.mpr (Or.inr ?_), rfl, rfl, rfl⟩
    exact (mem_driftConflicts vf nodes _).mpr ⟨n, hn, hfix, rfl⟩

theorem detect_conflicts_drift_iff_witness :
    ∃ c ∈ detect_conflicts vfDrift [nodeW],
      c.type = ConflictType.taxonomy_drift ∧ c.severity = Severity.warning
        ∧ c.nodes = [nodeW] :=
  (detect_conflicts_drift_iff vfDrift [nodeW] nodeW (by decide)).mpr (by decide)

/-- C5: the parser derives both `id` and `name` from the file's base name
with the extension removed (so `/workspace/agent.yaml` yields `agent`,
not `agent.yaml`), and every node returned by `scan_workspace` satisfies
the same relation between its `id`/`name` and its `file_path`. -/
theorem parser_stem_spec :
    (∀ path content node, parse path (some content) = some node →
        node.id = stem path ∧ node.name = stem path ∧ node.file_path = path)
    ∧ stem "/workspace/agent.yaml" = "agent"
    ∧ ∀ (env : CycleEnv) (root : String) (tr : Trace) nodes labels tr2,
        scan_workspace env root tr = (Except.ok nodes, labels, tr2) →
        ∀ n ∈ nodes, n.id = stem n.file_path ∧ n.name = stem n.file_path := by
  refine ⟨?_, by decide, ?_⟩
  · intro path content node h
    simp only [parse, Option.some.injEq] at h
    subst h
    exact ⟨rfl, rfl, rfl⟩
  · intro env root tr nodes labels tr2 h
    cases hscan : env.scanResult with
    | error e =>
      rw [scan_workspace_error_eq env root tr e hscan] at h
      simp at h
    | ok fs =>
      rw [scan_workspace_ok_eq env root tr fs hscan] at h
      have h1 : Except.ok (scanFiles env fs (tr ++ [scanCall root])).1
          = Except.ok nodes := congrArg (fun p => p.1) h
      injection h1 with h1
      subst h1
      exact scanFiles_nodes env fs (tr ++ [scanCall root])

theorem parser_stem_spec_witness :
    stem "/workspace/agent.yaml" = "agent"
    ∧ ∃ node, parse "/workspace/test.yaml" (some "test content") = some node
        ∧ node.id = stem "/workspace/test.yaml"
        ∧ node.name = stem "/workspace/test.yaml" :=
  ⟨parser_stem_spec.2.1,
    ⟨{ id := stem "/workspace/test.yaml", name := stem "/workspace/test.yaml",
       type := "service", dependencies := [], file_path := "/workspace/test.yaml",
       metadata := [] }, rfl,
      (parser_stem_spec.1 "/workspace/test.yaml" "test content" _ rfl).1,
      (parser_stem_spec.1 "/workspace/test.yaml" "test content" _ rfl).2.1⟩⟩

/-- The trace produced by a compliant cycle over an empty workspace. -/
def traceCompliant : CycleTrace :=
  { nodes := [], violations := [], autoRepairRuns := 0, repair := none,
    prCreated := false, calls := [scanCall "/workspace"] }

/-- The node produced by scanning `/workspace/a.yaml`. -/
def nodeScanned : DependencyNode :=
  { id := "a", name := "a", type := "service", dependencies := [],
    file_path := "/workspace/a.yaml", metadata := [] }

/-- The trace produced by a compliant cycle over a one-file workspace:
two external calls (the scan and one read). -/
def traceOneFile : CycleTrace :=
  { nodes := [nodeScanned], violations := [], autoRepairRuns := 0, repair := none,
    prCreated := false, calls := [scanCall "/workspace", readCall "/workspace/a.yaml"] }

theorem run_maintenance_cycle_single_call_counterexample :
    ∃ t, run_maintenance_cycle envOneFile "/workspace" = Except.ok t
      ∧ t.violations = [] ∧ ¬ t.calls.length = 1 :=
  ⟨traceOneFile, by decide, rfl, by decide⟩

/-- C6 (amended): in a cycle whose VALIDATE phase collects zero violations,
no auto-repair run and no PR-creation call occur; the external calls are
exactly the one workspace scan followed by one content read per file the
scan returned — hence exactly one call when the scan lists no files. -/
theorem run_maintenance_cycle_no_violations (env : CycleEnv) (root : String) (t : CycleTrace)
    (hrun : run_maintenance_cycle env root = Except.ok t) (hv : t.violations = []) :
    t.autoRepairRuns = 0 ∧ t.repair = none ∧ t.prCreated = false
    ∧ (∀ c ∈ t.calls, c.tool ≠ "create_pr")
    ∧ ∃ fs, env.scanResult = Except.ok fs
        ∧ t.calls = scanCall root :: fs.map readCall
        ∧ (fs = [] → t.calls.length = 1) := by
  cases hscan : env.scanResult with
  | error e =>
    rw [run_maintenance_cycle, scan_workspace_error_eq env root [] e hscan] at hrun
    exact absurd hrun (by simp)
  | ok fs =>
    rw [run_maintenance_cycle, scan_workspace_ok_eq env root [] fs hscan] at hrun
    dsimp only at hrun
    by_cases hemp : (validate_taxonomy env.validate_agent_name
        (scanFiles env fs ([] ++ [scanCall root])).1).1.violations.isEmpty
    · rw [if_pos hemp] at hrun
      injection hrun with h
      subst h
      refine ⟨rfl, rfl, rfl, ?_, fs, rfl, by simp, ?_⟩
      · intro c hc
        simp only [List.nil_append, List.cons_append] at hc
        rcases List.mem_cons.mp hc with rfl | hc
        · simp [scanCall]
        · obtain ⟨p, -, rfl⟩ := List.mem_map.mp (by simpa using hc)
          simp [readCall]
      · intro hfs
        subst hfs
        simp
    · rw [if_neg hemp] at hrun
      by_cases hra : (auto_repair env.validate_and_fix
          (validate_taxonomy env.validate_agent_name
            (scanFiles env fs ([] ++ [scanCall root])).1).1.violations).repairs_applied.isEmpty
      · rw [if_pos hra] at hrun
        injection hrun with h
        subst h
        exact absurd (List.isEmpty_iff.mpr hv) hemp
      · rw [if_neg hra] at hrun
        injection hrun with h
        subst h
        exact absurd (List.isEmpty_iff.mpr hv) hemp

theorem run_maintenance_cycle_no_violations_witness :
    traceCompliant.autoRepairRuns = 0 ∧ traceCompliant.repair = none
    ∧ traceCompliant.prCreated = false
    ∧ (∀ c ∈ traceCompliant.calls, c.tool ≠ "create_pr")
    ∧ ∃ fs, envCompliant.scanResult = Except.ok fs
        ∧ traceCompliant.calls = scanCall "/workspace" :: fs.map readCall
        ∧ (fs = [] → traceCompliant.calls.length = 1) :=
  run_maintenance_cycle_no_violations envCompliant "/workspace" traceCompliant
    (by decide) rfl

lemma mem_firstNames (nodes : List DependencyNode) (nm : String) :
    nm ∈ firstNames nodes ↔ ∃ n ∈ nodes, n.name = nm := by
  induction nodes with
  | nil => simp [firstNames]
  | cons n rest ih =>
    simp only [firstNames, List.mem_cons, List.mem_filter, decide_eq_true_eq, ih]
    constructor
    · rintro (rfl | ⟨⟨m, hm, rfl⟩, -⟩)
      · exact ⟨n, Or.inl rfl, rfl⟩
      · exact ⟨m, Or.inr hm, rfl⟩
    · rintro ⟨m, hm, rfl⟩
      rcases hm with rfl | hm'
      · exact Or.inl rfl
      · by_cases he : m.name = n.name
        · exact Or.inl he
        · exact Or.inr ⟨⟨m, hm', rfl⟩, he⟩

lemma firstNames_nodup (nodes : List DependencyNode) : (firstNames nodes).Nodup := by
  induction nodes with
  | nil => simp [firstNames]
  | cons n rest ih =>
    rw [firstNames, List.nodup_cons]
    refine ⟨?_, ih.filter _⟩
    intro hmem
    rw [List.mem_filter] at hmem
    simp at hmem

lemma mem_nameGroup (nodes : List DependencyNode) (nm : String) (n : DependencyNode) :
    n ∈ nameGroup nodes nm ↔ n ∈ nodes ∧ n.name = nm := by
  simp [nameGroup, List.mem_filter]

lemma nameGroup_any (nodes : List DependencyNode) (nm : String)
    (h : 0 < (nameGroup nodes nm).length) :
    (nameGroup nodes nm).any (fun n => n.name == nm) = true := by
  obtain ⟨n, hn⟩ := List.exists_mem_of_length_pos h
  exact List.any_eq_true.mpr ⟨n, hn, by simp [((mem_nameGroup nodes nm n).mp hn).2]⟩

lemma dupConflict_not_mentions (nodes : List DependencyNode) (a nm : String) (hne : a ≠ nm) :
    (dupConflict nodes a).nodes.any (fun n => n.name == nm) = false := by
  rw [List.any_eq_false]
  intro n hn
  have := ((mem_nameGroup nodes a n).mp hn).2
  simp [this, hne]

lemma filterDup_not_mem (nodes : List DependencyNode) (nm : String) (names : List String)
    (h : nm ∉ names) :
    ((names.filterMap (fun x =>
        if 2 ≤ (nameGroup nodes x).length then some (dupConflict nodes x) else none)).filter
      (fun c => c.nodes.any (fun n => n.name == nm))) = [] := by
  induction names with
  | nil => rfl
  | cons a as ih =>
    have hne : a ≠ nm := fun he => h (he ▸ List.mem_cons_self a as)
    have hrest := ih (fun hm => h (List.mem_cons_of_mem a hm))
    rw [List.filterMap_cons]
    by_cases hcond : 2 ≤ (nameGroup nodes a).length
    · rw [if_pos hcond, List.filter_cons,
        if_neg (by simp [dupConflict_not_mentions nodes a nm hne])]
      exact hrest
    · rw [if_neg hcond]
      exact hrest

lemma filterDup_mem (nodes : List DependencyNode) (nm : String)
    (hbig : 2 ≤ (nameGroup nodes nm).length) (names : List String) :
    names.Nodup → nm ∈ names →
    ((names.filterMap (fun x =>
        if 2 ≤ (nameGroup nodes x).length then some (dupConflict nodes x) else none)).filter
      (fun c => c.nodes.any (fun n => n.name == nm))) = [dupConflict nodes nm] := by
  induction names with
  | nil => intro _ h; cases h
  | cons a as ih =>
    intro hnd hmem
    rw [List.nodup_cons] at hnd
    rcases List.mem_cons.mp hmem with rfl | hmem'
    · have hany : (dupConflict nodes nm).nodes.any (fun n => n.name == nm) = true :=
        nameGroup_any nodes nm (by omega)
      rw [List.filterMap_cons, if_pos hbig, List.filter_cons, if_pos hany,
        filterDup_not_mem nodes nm as hnd.1]
    · have hne : a ≠ nm := fun he => hnd.1 (he ▸ hmem')
      rw [List.filterMap_cons]
      by_cases hcond : 2 ≤ (nameGroup nodes a).length
      · rw [if_pos hcond, List.filter_cons,
          if_neg (by simp [dupConflict_not_mentions nodes a nm hne])]
        exact ih hnd.2 hmem'
      · rw [if_neg hcond]
        exact ih hnd.2 hmem'

lemma dup_type (nodes : List DependencyNode) :
    ∀ c ∈ duplicateConflicts nodes, c.type = ConflictType.duplicate_name := by
  intro c hc
  obtain ⟨nm, -, -, rfl⟩ := (mem_duplicateConflicts nodes c).mp hc
  rfl

lemma drift_type (vf : String → FixResult) (nodes : List DependencyNode) :
    ∀ c ∈ driftConflicts vf nodes, c.type = ConflictType.taxonomy_drift := by
  intro c hc
  obtain ⟨m, -, -, rfl⟩ := (mem_driftConflicts vf nodes c).mp hc
  rfl

lemma nameGroup_length_le_one (nodes : List DependencyNode)
    (h : (nodes.map (fun n => n.name)).Nodup) (nm : String) :
    (nameGroup nodes nm).length ≤ 1 := by
  induction nodes with
  | nil => simp [nameGroup]
  | cons n rest ih =>
    rw [List.map_cons, List.nodup_cons] at h
    obtain ⟨hnin, hnd⟩ := h
    rw [nameGroup, List.filter_cons]
    by_cases he : n.name = nm
    · rw [if_pos (by simp [he])]
      have hnil : rest.filter (fun x => x.name == nm) = [] := by
        rw [List.filter_eq_nil_iff]
        intro m hm
        simp only [beq_iff_eq]
        intro hmnm
        exact hnin (List.mem_map.mpr ⟨m, hm, hmnm.trans he.symm⟩)
      simp [hnil]
    · rw [if_neg (by simp [he])]
      exact ih hnd

/-- C1: for every name shared by `k ≥ 2` nodes of the input,
`detect_conflicts` returns exactly one conflict mentioning that name with
type `duplicate_name` — it carries severity `error` and the full group of
`k` nodes — and when all input names are distinct no `duplicate_name`
conflict is produced at all. -/
theorem detect_conflicts_duplicates_spec (vf : String → FixResult)
    (nodes : List DependencyNode) :
    (∀ nm, 2 ≤ (nameGroup nodes nm).length →
      ((detect_conflicts vf nodes).filter (fun c =>
          c.type == ConflictType.duplicate_name && c.nodes.any (fun n => n.name == nm)))
        = [dupConflict nodes nm]
      ∧ (dupConflict nodes nm).severity = Severity.error
      ∧ (dupConflict nodes nm).nodes.length = (nameGroup nodes nm).length)
    ∧ ((nodes.map (fun n => n.name)).Nodup →
        ∀ c ∈ detect_conflicts vf nodes, c.type ≠ ConflictType.duplicate_name) := by
  constructor
  · intro nm hbig
    refine ⟨?_, rfl, rfl⟩
    rw [detect_conflicts, List.filter_append]
    have hdrift : (driftConflicts vf nodes).filter (fun c =>
        c.type == ConflictType.duplicate_name && c.nodes.any (fun n => n.name == nm)) = [] := by
      rw [List.filter_eq_nil_iff]
      intro c hc
      simp [drift_type vf nodes c hc]
    have hcong : (duplicateConflicts nodes).filter (fun c =>
          c.type == ConflictType.duplicate_name && c.nodes.any (fun n => n.name == nm))
        = (duplicateConflicts nodes).filter (fun c => c.nodes.any (fun n => n.name == nm)) := by
      apply List.filter_congr
      intro c hc
      simp [dup_type nodes c hc]
    rw [hdrift, hcong, List.append_nil]
    have hmem : nm ∈ firstNames nodes := by
      obtain ⟨n, hn⟩ := List.exists_mem_of_length_pos (by omega :
        0 < (nameGroup nodes nm).length)
      exact (mem_firstNames nodes nm).mpr
        ⟨n, ((mem_nameGroup nodes nm n).mp hn).1, ((mem_nameGroup nodes nm n).mp hn).2⟩
    exact filterDup_mem nodes nm hbig (firstNames nodes) (firstNames_nodup nodes) hmem
  · intro hnd c hc
    have hdup : duplicateConflicts nodes = [] := by
      rw [duplicateConflicts, List.filterMap_eq_nil_iff]
      intro nm _
      rw [if_neg]
      have := nameGroup_length_le_one nodes hnd nm
      omega
    rw [detect_conflicts, hdup, List.nil_append] at hc
    simp [drift_type vf nodes c hc]

theorem detect_conflicts_duplicates_spec_witness :
    ((detect_conflicts vfId [nodeA, nodeB]).filter (fun c =>
        c.type == ConflictType.duplicate_name
          && c.nodes.any (fun n => n.name == "platform-agent-service-v1")))
      = [dupConflict [nodeA, nodeB] "platform-agent-service-v1"]
    ∧ (dupConflict [nodeA, nodeB] "platform-agent-service-v1").severity = Severity.error
    ∧ (dupConflict [nodeA, nodeB] "platform-agent-service-v1").nodes.length
        = (nameGroup [nodeA, nodeB] "platform-agent-service-v1").length :=
  (detect_conflicts_duplicates_spec vfId [nodeA, nodeB]).1
    "platform-agent-service-v1" (by decide)

lemma filterMap_if_map {α β : Type} (p : α → Prop) [DecidablePred p] (g : α → β)
    (l : List α) :
    l.filterMap (fun a => if p a then some (g a) else none)
      = (l.filter (fun a => decide (p a))).map g := by
  induction l with
  | nil => rfl
  | cons a as ih =>
    by_cases h : p a
    · simp [List.filterMap_cons, List.filter_cons, h, ih]
    · simp [List.filterMap_cons, List.filter_cons, h, ih]

lemma firstSeenIdx_cons (n : DependencyNode) (rest : List DependencyNode) (nm : String) :
    firstSeenIdx (n :: rest) nm
      = if n.name = nm then 0 else firstSeenIdx rest nm + 1 := by
  rw [firstSeenIdx, List.findIdx_cons]
  by_cases h : n.name = nm
  · simp [h]
  · have hb : (n.name == nm) = false := by simp [h]
    simp [h, hb, firstSeenIdx]

lemma firstNames_pairwise_idx (nodes : List DependencyNode) :
    (firstNames nodes).Pairwise (fun a b => firstSeenIdx nodes a < firstSeenIdx nodes b) := by
  induction nodes with
  | nil => simp [firstNames]
  | cons n rest ih =>
    rw [firstNames, List.pairwise_cons]
    constructor
    · intro b hb
      rw [List.mem_filter, decide_eq_true_eq] at hb
      rw [firstSeenIdx_cons, firstSeenIdx_cons, if_pos rfl, if_neg (fun h => hb.2 h.symm)]
      omega
    · refine List.Pairwise.imp_of_mem ?_ (List.Pairwise.filter _ ih)
      intro a b ha hb hr
      rw [List.mem_filter, decide_eq_true_eq] at ha hb
      rw [firstSeenIdx_cons, firstSeenIdx_cons, if_neg (fun h => ha.2 h.symm),
        if_neg (fun h => hb.2 h.symm)]
      omega

lemma confName_dupConflict (nodes : List DependencyNode) (nm : String)
    (h : 0 < (nameGroup nodes nm).length) :
    confName (dupConflict nodes nm) = nm := by
  cases hgrp : nameGroup nodes nm with
  | nil => rw [hgrp] at h; simp at h
  | cons n g =>
    have hn : n.name = nm :=
      ((mem_nameGroup nodes nm n).mp (hgrp ▸ List.mem_cons_self n g)).2
    simp [confName, dupConflict, hgrp, hn]

theorem detect_conflicts_order_counterexample :
    ¬ ((((detect_conflicts vfDrift [nodeA, nodeY, nodeC]).filter
          (fun c => c.type == ConflictType.taxonomy_drift)).map
        (fun c => firstSeenIdx [nodeA, nodeY, nodeC] (confName c))).Pairwise (· ≤ ·)) := by
  decide

/-- C9 (amended): `detect_conflicts` returns all `duplicate_name` conflicts
before all `taxonomy_drift` conflicts; the duplicate conflicts appear in
strictly increasing order of the first-seen position of their shared name,
while the drift conflicts appear in input node order (one singleton node
set per drifting node, as a sublist of the input). -/
theorem detect_conflicts_order (vf : String → FixResult) (nodes : List DependencyNode) :
    ∃ ds ts, detect_conflicts vf nodes = ds ++ ts
      ∧ (∀ c ∈ ds, c.type = ConflictType.duplicate_name ∧ c.severity = Severity.error)
      ∧ (∀ c ∈ ts, c.type = ConflictType.taxonomy_drift ∧ c.severity = Severity.warning)
      ∧ (ds.map confName).Pairwise (fun a b => firstSeenIdx nodes a < firstSeenIdx nodes b)
      ∧ ∃ sub : List DependencyNode, sub.Sublist nodes
          ∧ ts.map Conflict.nodes = sub.map (fun n => [n]) := by
  refine ⟨duplicateConflicts nodes, driftConflicts vf nodes, rfl, ?_, ?_, ?_, ?_⟩
  · intro c hc
    obtain ⟨nm, -, -, rfl⟩ := (mem_duplicateConflicts nodes c).mp hc
    exact ⟨rfl, rfl⟩
  · intro c hc
    obtain ⟨m, -, -, rfl⟩ := (mem_driftConflicts vf nodes c).mp hc
    exact ⟨rfl, rfl⟩
  · have hmap : (duplicateConflicts nodes).map confName
        = (firstNames nodes).filter (fun nm => decide (2 ≤ (nameGroup nodes nm).length)) := by
      rw [duplicateConflicts, List.map_filterMap]
      have h1 : (fun nm => (if 2 ≤ (nameGroup nodes nm).length
              then some (dupConflict nodes nm) else none).map confName)
          = fun nm => if 2 ≤ (nameGroup nodes nm).length then some nm else none := by
        funext nm
        by_cases h : 2 ≤ (nameGroup nodes nm).length
        · rw [if_pos h, if_pos h, Option.map_some', confName_dupConflict nodes nm (by omega)]
        · rw [if_neg h, if_neg h]; rfl
      rw [h1, filterMap_if_map (fun nm => 2 ≤ (nameGroup nodes nm).length) (fun nm => nm),
        List.map_id']
    rw [hmap]
    exact List.Pairwise.filter _ (firstNames_pairwise_idx nodes)
  · refine ⟨nodes.filter (fun n => decide ((vf n.name).fixed ≠ n.name)),
      List.filter_sublist nodes, ?_⟩
    rw [driftConflicts, List.map_filterMap]
    have h1 : (fun n => (if (vf n.name).fixed ≠ n.name
            then some (driftConflict vf n) else none).map Conflict.nodes)
        = fun n => if (vf n.name).fixed ≠ n.name then some [n] else none := by
      funext n
      by_cases h : (vf n.name).fixed = n.name
      · rw [if_neg (not_not_intro h), if_neg (not_not_intro h)]; rfl
      · rw [if_pos h, if_pos h]; rfl
    rw [h1]
    exact filterMap_if_map (fun n : DependencyNode => (vf n.name).fixed ≠ n.name)
      (fun n : DependencyNode => [n]) nodes

theorem detect_conflicts_order_witness :
    ∃ ds ts, detect_conflicts vfDrift [nodeA, nodeY, nodeC] = ds ++ ts
      ∧ (∀ c ∈ ds, c.type = ConflictType.duplicate_name ∧ c.severity = Severity.error)
      ∧ (∀ c ∈ ts, c.type = ConflictType.taxonomy_drift ∧ c.severity = Severity.warning)
      ∧ (ds.map confName).Pairwise (fun a b =>
          firstSeenIdx [nodeA, nodeY, nodeC] a < firstSeenIdx [nodeA, nodeY, nodeC] b)
      ∧ ∃ sub : List DependencyNode, sub.Sublist [nodeA, nodeY, nodeC]
          ∧ ts.map Conflict.nodes = sub.map (fun n => [n]) :=
  detect_conflicts_order vfDrift [nodeA, nodeY, nodeC]

end DagMaintenance
